/-
  Verification of the semantic-terminal core against its specification.

  Shallow embedding: strings are `List Char`; each definition is translated
  from the TypeScript source file cited in its doc comment.  JavaScript
  `String.prototype.trim` removes whitespace at both ends; `slice(n)` is
  `List.drop n`; `startsWith`/`endsWith` are `List.isPrefixOf`/`List.isSuffixOf`.
-/
import Mathlib

namespace SemanticTerminal

/-- ASCII whitespace characters, as matched by the JavaScript `\s` class and
`String.prototype.trim` (the Unicode space characters, which never occur in
the inputs considered here, are omitted). -/
def jsWs (c : Char) : Bool :=
  c = ' ' ∨ c = '\t' ∨ c = '\n' ∨ c = '\r' ∨ c = Char.ofNat 11 ∨ c = Char.ofNat 12

/-- Leading-whitespace removal. -/
def trimLeft (l : List Char) : List Char := l.dropWhile jsWs

/-- Trailing-whitespace removal (a right trim). -/
def trimRight (l : List Char) : List Char := (l.reverse.dropWhile jsWs).reverse

/-- JavaScript `String.prototype.trim`: removes whitespace at BOTH ends. -/
def jsTrim (l : List Char) : List Char := trimLeft (trimRight l)

/-- `lines.join('\n')`. -/
def joinLines (lines : List (List Char)) : List Char :=
  List.intercalate ['\n'] lines

/-- Substring test: JavaScript `text.includes(needle)`. -/
def containsSub (text needle : List Char) : Bool :=
  text.tails.any (fun t => needle.isPrefixOf t)

/-- Case-insensitive prefix test (JavaScript `/.../i` on an ASCII literal). -/
def startsWithCI (needle l : List Char) : Bool :=
  (needle.map Char.toLower).isPrefixOf (l.map Char.toLower)

/-- Case-insensitive substring test. -/
def containsSubCI (text needle : List Char) : Bool :=
  containsSub (text.map Char.toLower) (needle.map Char.toLower)

/-! ## Pattern matcher (src/packages/core/src/utils/pattern-matcher.ts) -/

/-- The anchored regular expression obtained from a glob pattern by replacing
each `*` with `.*`, as a matcher over patterns of LITERAL characters and
`*` — the specification-side reading of the claim's "anchored regular
expression".  For patterns containing no other JavaScript regex
metacharacter (`noRegexMeta` below) this is exactly the behaviour of the
regex the source constructs; patterns WITH metacharacters mean something
else to the JavaScript engine (or fail to compile) and are excluded by
hypothesis from every theorem that equates this with the code. -/
def globRegexMatch : List Char → List Char → Bool
  | [], v => v.isEmpty
  | c :: ps, v =>
    if c = '*' then v.tails.any (fun t => globRegexMatch ps t)
    else
      match v with
      | [] => false
      | d :: vs => c == d && globRegexMatch ps vs

/-- The JavaScript regex metacharacters other than `*` (which
`pattern.replace(/\*/g, '.*')` rewrites away): any of these in a pattern
makes the regex the source builds diverge from the literal reading of the
pattern, or fail to compile.  `\x7b`, `\x7d` and `\x5c` are the left
brace, the right brace and the backslash. -/
def jsRegexMeta : List Char :=
  ['.', '^', '$', '+', '?', '(', ')', '[', ']', '|',
   Char.ofNat 123, Char.ofNat 125, Char.ofNat 92]

/-- The pattern consists of literal characters and `*` only.  On such
patterns `new RegExp('^' + pattern.replace(/\*/g, '.*') + '$')` compiles,
and its `test` is exactly `globRegexMatch`. -/
def noRegexMeta (p : List Char) : Bool := p.all (fun c => !(jsRegexMeta.contains c))

/-- `matchPattern` from src/packages/core/src/utils/pattern-matcher.ts
lines 14-44: exact match, then `'*'`, then the prefix-wildcard branch
(`endsWith('*') && !startsWith('*')`, comparing `slice(0,-1)` as a literal
prefix), then the suffix-wildcard branch (`slice(1)` as a literal suffix),
then the regex branch for remaining patterns containing `*`, else false.
The regex branch builds `new RegExp('^' + pattern.replace(/\*/g, '.*') + '$')`
and calls `.test(value)`: that external regex engine is modelled by the
parameter `rt`, which returns `none` when `RegExp` construction throws (an
invalid pattern such as `a(b*c`, which makes `matchPattern` itself throw)
and `some b` when the test returns `b`.  The only fact about `rt` the
theorems use is that on `noRegexMeta` patterns it equals
`some (globRegexMatch ...)`. -/
def matchPattern (rt : List Char → List Char → Option Bool) (p v : List Char) : Option Bool :=
  if p = v then some true
  else if p = ['*'] then some true
  else if p.getLast? = some '*' ∧ ¬ p.head? = some '*' then
    some (p.dropLast.isPrefixOf v)
  else if p.head? = some '*' ∧ ¬ p.getLast? = some '*' then
    some ((p.drop 1).isSuffixOf v)
  else if '*' ∈ p then rt p v
  else some false

/-! ## Session data model (src/packages/core/src/core/types.ts) -/

/-- The closed set of session states (types.ts lines 446-454). -/
inductive SessionState
  | starting
  | idle
  | thinking
  | responding
  | tool_running
  | confirming
  | error
  | exited
  deriving DecidableEq

/-! ## Parser registry dispatch (src/packages/core/src/parsers/registry.ts)

A registered parser is modelled by its behaviour on the one fixed context
being dispatched: it either threw (the `catch` branch) or returned a result.
The registry functions below are the loops of `detectState` (lines 98-115),
`parseOutput` (lines 121-140) and `detectConfirm` (lines 146-159). -/

/-- A state-detection result: `{state, confidence}` (meta omitted; it is
never read by the registry). -/
structure StResult where
  state : SessionState
  confidence : ℚ
  deriving DecidableEq

/-- Behaviour of one registered state parser on the dispatched context. -/
inductive StPRes
  | threw
  | ok (r : Option StResult)
  deriving DecidableEq

/-- The results of the parsers that matched (returned non-null), in
registration (priority) order. -/
def stMatches : List StPRes → List StResult
  | [] => []
  | .threw :: rest => stMatches rest
  | .ok none :: rest => stMatches rest
  | .ok (some r) :: rest => r :: stMatches rest

/-- The loop of `ParserRegistry.detectState`: starts with
`bestResult = null`, `bestConfidence = 0`, keeps a result only when its
confidence is strictly greater, and skips parsers that threw. -/
def detectStateLoop : List StPRes → Option StResult → ℚ → Option StResult
  | [], best, _ => best
  | .threw :: rest, best, bc => detectStateLoop rest best bc
  | .ok none :: rest, best, bc => detectStateLoop rest best bc
  | .ok (some r) :: rest, best, bc =>
    if bc < r.confidence then detectStateLoop rest (some r) r.confidence
    else detectStateLoop rest best bc

/-- `ParserRegistry.detectState` (registry.ts lines 98-115). -/
def detectStateD (l : List StPRes) : Option StResult := detectStateLoop l none 0

/-- A semantic output as the registry sees it: only `confidence` is read by
the dispatch loop; `raw` keeps distinct results distinguishable. -/
structure OutResult where
  confidence : ℚ
  raw : List Char
  deriving DecidableEq

/-- Behaviour of one registered output parser on the dispatched context:
`canParse` threw, returned false, or returned true and then `parse` threw
or returned a result. -/
inductive OutPRes
  | canThrew
  | noCan
  | parseThrew
  | parsed (r : Option OutResult)
  deriving DecidableEq

/-- The non-null parse results of the output parsers whose `canParse`
returned true, in registration order. -/
def outMatches : List OutPRes → List OutResult
  | [] => []
  | .canThrew :: rest => outMatches rest
  | .noCan :: rest => outMatches rest
  | .parseThrew :: rest => outMatches rest
  | .parsed none :: rest => outMatches rest
  | .parsed (some r) :: rest => r :: outMatches rest

/-- The loop of `ParserRegistry.parseOutput` (registry.ts lines 121-140). -/
def parseOutputLoop : List OutPRes → Option OutResult → ℚ → Option OutResult
  | [], best, _ => best
  | .canThrew :: rest, best, bc => parseOutputLoop rest best bc
  | .noCan :: rest, best, bc => parseOutputLoop rest best bc
  | .parseThrew :: rest, best, bc => parseOutputLoop rest best bc
  | .parsed none :: rest, best, bc => parseOutputLoop rest best bc
  | .parsed (some r) :: rest, best, bc =>
    if bc < r.confidence then parseOutputLoop rest (some r) r.confidence
    else parseOutputLoop rest best bc

/-- `ParserRegistry.parseOutput`. -/
def parseOutputD (l : List OutPRes) : Option OutResult := parseOutputLoop l none 0

/-- Confirmation dialog kind: the `type` field of a `ConfirmInfo`
(types.ts line 657).  The remaining fields (prompt, options, tool,
rawPrompt) are not read by the code verified here and are not modelled. -/
inductive ConfirmType
  | options
  | yesno
  | input
  deriving DecidableEq

/-- A detected confirmation, restricted to its `type` field. -/
structure ConfirmInfo' where
  ctype : ConfirmType
  deriving DecidableEq

/-- Behaviour of one registered confirm parser on the dispatched context. -/
inductive CPRes
  | threw
  | ok (i : Option ConfirmInfo')
  deriving DecidableEq

/-- `ParserRegistry.detectConfirm` (registry.ts lines 146-159): the first
non-null detection wins; parsers that threw are skipped.  (The source also
returns the winning parser alongside the info; only the info is modelled.) -/
def detectConfirmD : List CPRes → Option ConfirmInfo'
  | [] => none
  | .threw :: rest => detectConfirmD rest
  | .ok none :: rest => detectConfirmD rest
  | .ok (some i) :: _ => some i

/-- Remove the parsers that threw during dispatch. -/
def stDropThrows : List StPRes → List StPRes
  | [] => []
  | .threw :: rest => stDropThrows rest
  | p :: rest => p :: stDropThrows rest

/-- Remove the output parsers that threw (in `canParse` or in `parse`). -/
def outDropThrows : List OutPRes → List OutPRes
  | [] => []
  | .canThrew :: rest => outDropThrows rest
  | .parseThrew :: rest => outDropThrows rest
  | p :: rest => p :: outDropThrows rest

/-- Remove the confirm parsers that threw. -/
def cDropThrows : List CPRes → List CPRes
  | [] => []
  | .threw :: rest => cDropThrows rest
  | p :: rest => p :: cDropThrows rest

/-- The first element of `l` whose confidence exceeds the threshold `bc` and
is not exceeded by any later element: exactly what the strict-improvement
loops above compute.  (Specification-side helper for the dispatch claims.) -/
def firstMaxT {α : Type} (conf : α → ℚ) : ℚ → List α → Option α
  | _, [] => none
  | bc, r :: rest =>
    match firstMaxT conf bc rest with
    | none => if bc < conf r then some r else none
    | some b => if conf b ≤ conf r then some r else some b

/-- The strict-improvement loop of the dispatchers, over the plain list of
matching results (proof-side helper relating the loops to `firstMaxT`). -/
def bestLoop {α : Type} (conf : α → ℚ) : List α → Option α → ℚ → Option α
  | [], best, _ => best
  | r :: rest, best, bc =>
    if bc < conf r then bestLoop conf rest (some r) (conf r)
    else bestLoop conf rest best bc

/-! ## Claude-Code confirm parser
(src/packages/core/src/parsers/confirm/claude-code.ts, and the arrow-key
revision of the same class in src/unnamed/part_004 lines 103-247) -/

/-- The character class `[\s❯>]` of the arrow-revision option regex. -/
def optionClassChar (c : Char) : Bool := jsWs c || c = '❯' || c = '>'

/-- One line matches `/^[\s❯>]*1\.\s*(Yes|Allow)/i` (part_004 line 116).
The `/m` flag on the joined `lastLines` makes the regex try each line
start; testing each line separately is equivalent because every character
the class consumes across a line boundary is again in the class. -/
def isOption1LineArrow (l : List Char) : Bool :=
  match l.dropWhile optionClassChar with
  | '1' :: '.' :: rest =>
    let r := rest.dropWhile jsWs
    startsWithCI "yes".data r || startsWithCI "allow".data r
  | _ => false

/-- One line matches `/^\s*1\.\s*(Yes|Allow)/i` (the pre-arrow revision,
confirm/claude-code.ts line 27, also used by the state parser). -/
def isOption1LinePlain (l : List Char) : Bool :=
  match l.dropWhile jsWs with
  | '1' :: '.' :: rest =>
    let r := rest.dropWhile jsWs
    startsWithCI "yes".data r || startsWithCI "allow".data r
  | _ => false

/-- `/\[Y\/n\]|\(yes\/no\)|Allow\?|Do you want to proceed/i` on the joined
text (both revisions, and the state parser). -/
def isYesNoConfirmText (text : List Char) : Bool :=
  containsSubCI text "[Y/n]".data || containsSubCI text "(yes/no)".data ||
  containsSubCI text "Allow?".data || containsSubCI text "Do you want to proceed".data

/-- `ClaudeCodeConfirmParser.detectConfirm` of the arrow revision
(part_004 lines 111-147), restricted to the `type` of the returned info
(prompt/options/tool extraction only fills the other fields). -/
def claudeConfirmDetectArrow (lastLines : List (List Char)) : Option ConfirmInfo' :=
  let text := joinLines lastLines
  if (lastLines.any isOption1LineArrow) && containsSub text "Esc to cancel".data then
    some ⟨ConfirmType.options⟩
  else if isYesNoConfirmText text then
    some ⟨ConfirmType.yesno⟩
  else none

/-- Response actions (types.ts line 670). -/
inductive CAction
  | confirm
  | deny
  | select
  | input
  deriving DecidableEq

/-- The `option` field of a response: JavaScript `string | number`. -/
inductive RespOpt
  | num (n : Nat)
  | str (s : List Char)
  deriving DecidableEq

/-- A `ConfirmResponse` (types.ts lines 668-675). -/
structure ConfirmResponse' where
  action : CAction
  option : Option RespOpt
  value : Option (List Char)
  deriving DecidableEq

/-- The down-arrow escape sequence `'\x1b[B'`. -/
def downKey : List Char := ['\x1b', '[', 'B']

/-- `ClaudeCodeConfirmParser.formatResponse` of the arrow revision
(part_004 lines 149-171): `'\r'` for confirm, two down-arrows plus `'\r'`
for deny on options dialogs, `option-1` down-arrows plus `'\r'` for select
of a numeric option greater than 1, else `'\r'`. -/
def formatResponseArrow (info : ConfirmInfo') (r : ConfirmResponse') : List Char :=
  match r.action with
  | .confirm => ['\r']
  | .deny =>
    if info.ctype = ConfirmType.options then downKey ++ downKey ++ ['\r']
    else ['n', '\r']
  | .select =>
    match r.option with
    | some (.num n) =>
      if 1 < n then (List.replicate (n - 1) downKey).flatten ++ ['\r'] else ['\r']
    | _ => ['\r']
  | .input => (match r.value with | some s => s | none => "undefined".data) ++ ['\r']

/-- JavaScript template interpolation of the `option` field. -/
def respOptToString : Option RespOpt → List Char
  | some (.num n) => (Nat.repr n).data
  | some (.str s) => s
  | none => "undefined".data

/-- `ClaudeCodeConfirmParser.formatResponse` of the literal-digit revision
(confirm/claude-code.ts lines 60-73): `'1\r'`/`'3\r'` on options dialogs,
`'y\r'`/`'n\r'` otherwise, and the interpolated option for select. -/
def formatResponseLegacy (info : ConfirmInfo') (r : ConfirmResponse') : List Char :=
  match r.action with
  | .confirm => if info.ctype = ConfirmType.options then "1\r".data else "y\r".data
  | .deny => if info.ctype = ConfirmType.options then "3\r".data else "n\r".data
  | .select => respOptToString r.option ++ ['\r']
  | .input => (match r.value with | some s => s | none => "undefined".data) ++ ['\r']

/-! ## Claude-Code state parser
(src/packages/core/src/parsers/state/claude-code.ts) -/

/-- `/^[❯>]\s*/.test(line.trim())`: the trimmed line starts with `❯` or
`>` (state parser line 264). -/
def hasPromptLine (l : List Char) : Bool :=
  match jsTrim l with
  | c :: _ => c = '❯' || c = '>'
  | [] => false

/-- `ClaudeCodeStateParser.detectState` (state/claude-code.ts lines
217-281), with the `meta` fields of the results omitted. -/
def claudeStateDetect (lastLines : List (List Char)) (currentState : Option SessionState) :
    Option StResult :=
  let text := joinLines lastLines
  if currentState == some SessionState.starting &&
      containsSub text "Yes, proceed".data && containsSub text "Enter to confirm".data then
    some ⟨SessionState.starting, 95/100⟩
  else
    let isRunning := containsSub text "esc to interrupt".data
    let isOptionConfirm :=
      (lastLines.any isOption1LinePlain) && containsSub text "Esc to cancel".data
    let isYesNo := isYesNoConfirmText text
    if isOptionConfirm || isYesNo then some ⟨SessionState.confirming, 95/100⟩
    else if isRunning then
      if containsSub text "Tool:".data ||
          (containsSub text "⏺".data && containsSub text "│".data) then
        some ⟨SessionState.tool_running, 85/100⟩
      else some ⟨SessionState.thinking, 9/10⟩
    else if lastLines.any hasPromptLine then some ⟨SessionState.idle, 9/10⟩
    else if containsSub text "Error:".data || containsSub text "error:".data ||
        containsSub text "✖".data then
      some ⟨SessionState.error, 7/10⟩
    else none

/-! ## Session driver (src/packages/core/src/core/terminal.ts and
src/packages/core/src/core/session.ts)

The virtual screen is modelled as its list of lines (TerminalBuffer exposes
lines `0 .. baseY+cursorY`; `getScreenText` joins them all,
`getLastLines(n)` returns the last `n`, buffer.ts lines 45-85). -/

/-- `TerminalBuffer.getLastLines(n)`: the last `n` lines (all of them when
the screen is shorter). -/
def getLastLinesL (n : Nat) (screen : List (List Char)) : List (List Char) :=
  screen.drop (screen.length - n)

/-- `TerminalBuffer.getScreenText()`: all lines joined with `'\n'`. -/
def getScreenTextL (screen : List (List Char)) : List Char := joinLines screen

/-- `PTYSession.hasScreenChanged` (session.ts lines 116-123): compares the
join of the LAST 10 LINES with the stored `lastScreenContent`; on a change
it stores the new value.  Returns the flag and the new stored value. -/
def hasScreenChangedS (screen : List (List Char)) (stored : List Char) : Bool × List Char :=
  let current := joinLines (getLastLinesL 10 screen)
  if current = stored then (false, stored) else (true, current)

/-- Events emitted by the driver (only those produced by `checkState`). -/
inductive Event
  | stateChange (next prev : SessionState)
  | confirmRequired (info : ConfirmInfo')
  deriving DecidableEq

/-- The driver state read and written by `checkState`:
`_state`, `pendingConfirm` (info component) and the session's
`lastScreenContent`. -/
structure DriverSt where
  state : SessionState
  pending : Option ConfirmInfo'
  lastScreenContent : List Char
  deriving DecidableEq

/-- `SemanticTerminal.setState` (terminal.ts lines 425-431): no-op when
unchanged, else update and emit `state_change`. -/
def setStateD (d : DriverSt) (ns : SessionState) : DriverSt × List Event :=
  if d.state = ns then (d, [])
  else (⟨ns, d.pending, d.lastScreenContent⟩, [Event.stateChange ns d.state])

/-- `SemanticTerminal.checkState` (terminal.ts lines 367-405) for a driver
with no `permissionChecker` installed (the default; the auto-handling
branch at lines 381-390 is then dead code).  The dispatch results of the
registry on the tick's context are passed in as `confirmRes` and
`stateRes`.  Note: a detected confirmation stores `pendingConfirm`, but a
tick that detects none never clears it. -/
def checkStateTick (d : DriverSt) (screen : List (List Char))
    (confirmRes : Option ConfirmInfo') (stateRes : Option SessionState) :
    DriverSt × List Event :=
  match hasScreenChangedS screen d.lastScreenContent with
  | (false, _) => (d, [])
  | (true, stored) =>
    let d1 : DriverSt := ⟨d.state, d.pending, stored⟩
    match confirmRes with
    | some info =>
      let d2 : DriverSt := ⟨d1.state, some info, d1.lastScreenContent⟩
      if d2.state = SessionState.confirming then (d2, [])
      else
        (⟨SessionState.confirming, d2.pending, d2.lastScreenContent⟩,
         [Event.stateChange SessionState.confirming d2.state, Event.confirmRequired info])
    | none =>
      match stateRes with
      | some s => setStateD d1 s
      | none => (d1, [])

/-- A tick of a driver whose registry holds the Claude-Code confirm parser
(arrow revision) and the Claude-Code state parser: the confirm dispatch
returns that parser's detection, and the state dispatch returns its result
(its confidences are all positive, so the registry keeps it). -/
def claudeTick (d : DriverSt) (screen : List (List Char)) : DriverSt × List Event :=
  let lastLines := getLastLinesL 10 screen
  checkStateTick d screen (claudeConfirmDetectArrow lastLines)
    ((claudeStateDetect lastLines (some d.state)).map (fun r => r.state))

/-- `SemanticTerminal.confirm` (terminal.ts lines 190-201): throws without
a pending confirmation; otherwise writes the parser-formatted bytes
(`fmt` is the remembered parser's `formatResponse` applied to the caller's
response) and clears `pendingConfirm` — the state is left untouched. -/
inductive ConfirmErr
  | noPending
  deriving DecidableEq

def confirmOp (d : DriverSt) (fmt : ConfirmInfo' → List Char) :
    Except ConfirmErr (DriverSt × List Char) :=
  match d.pending with
  | none => .error ConfirmErr.noPending
  | some info => .ok (⟨d.state, none, d.lastScreenContent⟩, fmt info)

/-- The new-content computation of `SemanticTerminal.exec` (terminal.ts
line 156): `afterContent.slice(beforeContent.length).trim()` — note that
JavaScript `trim` removes whitespace at BOTH ends. -/
def execNewContent (before after : List Char) : List Char :=
  jsTrim (after.drop before.length)

/-! ## wait_for_state (session.ts lines 314-340, terminal.ts lines 292-314)

A waiter is modelled by the sequence of `state_change` notifications it
receives before its timeout fires: it ends `resolved`, `rejectedEnded`
(the reject on entering error/exited), or still `pending` (in which case
only the later timeout rejects it). -/

inductive WaitOutcome
  | resolved
  | rejectedEnded
  | pending
  deriving DecidableEq

/-- The handler loop of `PTYSession.waitForState`: resolve on the target
state, reject on `error`/`exited` (checked after the target), keep
waiting otherwise. -/
def ptyWaitGo (target : SessionState) : List SessionState → WaitOutcome
  | [] => WaitOutcome.pending
  | s :: rest =>
    if s = target then WaitOutcome.resolved
    else if s = SessionState.error ∨ s = SessionState.exited then WaitOutcome.rejectedEnded
    else ptyWaitGo target rest

/-- `PTYSession.waitForState` (session.ts lines 314-340): immediate resolve
when already in the target state, else the handler loop. -/
def ptyWaitForState (cur target : SessionState) (events : List SessionState) : WaitOutcome :=
  if cur = target then WaitOutcome.resolved else ptyWaitGo target events

/-- The handler loop of `SemanticTerminal.waitForState`: it only ever
resolves on the target state — there is no error/exited branch. -/
def termWaitGo (target : SessionState) : List SessionState → WaitOutcome
  | [] => WaitOutcome.pending
  | s :: rest => if s = target then WaitOutcome.resolved else termWaitGo target rest

/-- `SemanticTerminal.waitForState` (terminal.ts lines 292-314). -/
def termWaitForState (cur target : SessionState) (events : List SessionState) : WaitOutcome :=
  if cur = target then WaitOutcome.resolved else termWaitGo target events

/-- The specification's wait contract, written from the spec's words:
resolve when entering the target state; reject immediately on entering
`error` or `exited` while waiting for a different state; otherwise keep
waiting for the timeout. -/
def waitSpec (cur target : SessionState) (events : List SessionState) : WaitOutcome :=
  if cur = target then WaitOutcome.resolved
  else
    match events.find? (fun s =>
        s == target || s == SessionState.error || s == SessionState.exited) with
    | some s => if s = target then WaitOutcome.resolved else WaitOutcome.rejectedEnded
    | none => WaitOutcome.pending

/-! ## sendMessage (src/packages/core/src/core/session.ts lines 195-219) -/

inductive Role
  | user
  | assistant
  deriving DecidableEq

/-- A conversation `Message` (types.ts lines 456-460). -/
structure Message' where
  role : Role
  content : List Char
  timestamp : Nat
  deriving DecidableEq

inductive WriteErr
  | notStarted
  | exited
  deriving DecidableEq

/-- The observable session state touched by `sendMessage`: whether the PTY
was spawned, the session state, the history, and the bytes written so far. -/
structure SessM where
  started : Bool
  state : SessionState
  history : List Message'
  written : List (List Char)
  deriving DecidableEq

/-- `PTYSession.write` (session.ts lines 195-205): throws when the session
was not started or has exited, else writes the bytes to the PTY. -/
def writeS (s : SessM) (data : List Char) : Except WriteErr SessM :=
  if ¬ s.started = true then .error WriteErr.notStarted
  else if s.state = SessionState.exited then .error WriteErr.exited
  else .ok ⟨s.started, s.state, s.history, s.written ++ [data]⟩

/-- `PTYSession.sendMessage` (session.ts lines 210-219): pushes the user
message (content trimmed) to the history FIRST, then writes the message
and `'\r'`; an exception from `write` propagates, with the history
mutation already applied. -/
def sendMessage (s : SessM) (msg : List Char) (now : Nat) : SessM × Option WriteErr :=
  let s1 : SessM := ⟨s.started, s.state, s.history ++ [⟨Role.user, jsTrim msg, now⟩], s.written⟩
  match writeS s1 msg with
  | .error e => (s1, some e)
  | .ok s2 =>
    match writeS s2 ['\r'] with
    | .error e => (s2, some e)
    | .ok s3 => (s3, none)

/-! ## Diff output parser (src/unnamed/part_003 lines 17-109)

The file-name extraction (lines 39-47) only fills the `file` field of the
result and never touches `hunks`; it is not modelled. -/

inductive ChangeKind
  | add
  | remove
  | context
  deriving DecidableEq

structure DiffChange where
  kind : ChangeKind
  content : List Char
  deriving DecidableEq

structure DiffHunk' where
  header : List Char
  changes : List DiffChange
  deriving DecidableEq

/-- `line.startsWith('@@')`. -/
def isHunkHeader (l : List Char) : Bool := "@@".data.isPrefixOf l

/-- The hunk-content classification (part_003 lines 62-79): `+` but not
`+++` is an addition, `-` but not `---` a removal, a leading space is
context, anything else is skipped. -/
def classifyDiffLine (l : List Char) : Option ChangeKind :=
  if "+".data.isPrefixOf l ∧ ¬ "+++".data.isPrefixOf l then some ChangeKind.add
  else if "-".data.isPrefixOf l ∧ ¬ "---".data.isPrefixOf l then some ChangeKind.remove
  else if " ".data.isPrefixOf l then some ChangeKind.context
  else none

/-- The line loop of `DiffOutputParser.parse` (part_003 lines 38-85): a
`@@` line pushes the current hunk and starts a new one; other lines are
classified into the current hunk (content = `line.slice(1)`) or, before
the first hunk, skipped; the last hunk is pushed at the end. -/
def diffParseLoop : List (List Char) → List DiffHunk' → Option DiffHunk' → List DiffHunk'
  | [], hunks, cur => hunks ++ cur.toList
  | l :: rest, hunks, cur =>
    if isHunkHeader l then diffParseLoop rest (hunks ++ cur.toList) (some ⟨l, []⟩)
    else
      match cur with
      | none => diffParseLoop rest hunks none
      | some h =>
        match classifyDiffLine l with
        | some k => diffParseLoop rest hunks (some ⟨h.header, h.changes ++ [⟨k, l.drop 1⟩]⟩)
        | none => diffParseLoop rest hunks (some h)

/-- `DiffOutputParser.parse` on the split lines of the text: null when no
hunk was found (part_003 lines 87-89), else the hunks. -/
def diffParse (lines : List (List Char)) : Option (List DiffHunk') :=
  let hunks := diffParseLoop lines [] none
  if hunks = [] then none else some hunks

/-- `DiffOutputParser.countChanges` restricted to one kind: the number of
changes of kind `k` summed over all hunks. -/
def countChangesK (k : ChangeKind) (hunks : List DiffHunk') : Nat :=
  (hunks.map (fun h => h.changes.countP (fun c => c.kind == k))).sum

/-- The claim's addition count: a line beginning with `+` but not `+++`. -/
def isAddLine (l : List Char) : Bool :=
  "+".data.isPrefixOf l && !("+++".data.isPrefixOf l)

/-- The claim's removal count: a line beginning with `-` but not `---`. -/
def isRemLine (l : List Char) : Bool :=
  "-".data.isPrefixOf l && !("---".data.isPrefixOf l)

/-- The input lines strictly after the first hunk-header line. -/
def afterFirstHunkHeader (lines : List (List Char)) : List (List Char) :=
  (lines.dropWhile (fun l => !(isHunkHeader l))).drop 1

/-! ## Concrete screens (spec §8, end-to-end scenario 3, and part_007) -/

/-- The scenario-3 confirmation block. -/
def scenario3Lines : List (List Char) :=
  ["xjp-mcp - xjp_secret_get(key: \"test\")".data,
   "❯ 1. Yes, allow this action".data,
   "  2. Yes, allow for this session".data,
   "  3. No, deny this action".data,
   "Esc to cancel".data]

/-- A plain idle prompt screen. -/
def idlePromptLines : List (List Char) := ["❯ ".data]

lemma globRegexMatch_cons_star (ps v : List Char) :
    globRegexMatch ('*' :: ps) v = v.tails.any (fun t => globRegexMatch ps t) := by
  simp [globRegexMatch]

lemma globRegexMatch_refl (l : List Char) : globRegexMatch l l = true := by
  induction l with
  | nil => rfl
  | cons c l ih =>
    by_cases hc : c = '*'
    · subst hc
      rw [globRegexMatch_cons_star, List.any_eq_true]
      refine ⟨l, ?_, ih⟩
      rw [List.mem_tails]
      exact List.suffix_cons _ _
    · simp [globRegexMatch, hc, ih]

lemma globRegexMatch_star (v : List Char) : globRegexMatch ['*'] v = true := by
  rw [globRegexMatch_cons_star, List.any_eq_true]
  exact ⟨[], by simp [List.mem_tails], rfl⟩

lemma globRegexMatch_nostar {p : List Char} (h : '*' ∉ p) (v : List Char) :
    globRegexMatch p v = true ↔ p = v := by
  induction p generalizing v with
  | nil => cases v <;> simp [globRegexMatch]
  | cons c ps ih =>
    have hc : ¬ c = '*' := fun hc => h (hc ▸ List.mem_cons_self c ps)
    have hps : '*' ∉ ps := fun hm => h (List.mem_cons_of_mem c hm)
    cases v with
    | nil => simp [globRegexMatch, hc]
    | cons d vs =>
      simp only [globRegexMatch, if_neg hc, Bool.and_eq_true, beq_iff_eq,
        List.cons.injEq, ih hps]

lemma globRegexMatch_endStar {q : List Char} (h : '*' ∉ q) (v : List Char) :
    globRegexMatch (q ++ ['*']) v = q.isPrefixOf v := by
  induction q generalizing v with
  | nil => simp [globRegexMatch_star, List.isPrefixOf]
  | cons c q ih =>
    have hc : ¬ c = '*' := fun hc => h (hc ▸ List.mem_cons_self c q)
    have hq : '*' ∉ q := fun hm => h (List.mem_cons_of_mem c hm)
    cases v with
    | nil => simp [globRegexMatch, hc, List.isPrefixOf]
    | cons d vs => simp [globRegexMatch, hc, ih hq, List.isPrefixOf]

lemma globRegexMatch_suffix {t : List Char} (h : '*' ∉ t) (v : List Char) :
    globRegexMatch ('*' :: t) v = t.isSuffixOf v := by
  have key : globRegexMatch ('*' :: t) v = true ↔ t.isSuffixOf v = true := by
    rw [globRegexMatch_cons_star, List.any_eq_true, List.isSuffixOf_iff_suffix]
    constructor
    · rintro ⟨u, hu, hm⟩
      rw [List.mem_tails] at hu
      exact ((globRegexMatch_nostar h u).mp hm) ▸ hu
    · intro hs
      exact ⟨t, (List.mem_tails _ _).mpr hs, (globRegexMatch_nostar h t).mpr rfl⟩
  exact Bool.eq_iff_iff.mpr key

lemma getLast?_star_mem {p : List Char} (hc : p.getLast? = some '*') : '*' ∈ p := by
  have hne : p ≠ [] := by intro hnil; rw [hnil] at hc; simp at hc
  have hl := List.getLast?_eq_getLast p hne
  rw [hl] at hc
  have hg := Option.some_injective _ hc
  rw [← hg]
  exact List.getLast_mem hne

lemma head?_star_mem {p : List Char} (hc : p.head? = some '*') : '*' ∈ p := by
  have hne : p ≠ [] := by intro hnil; rw [hnil] at hc; simp at hc
  have hl := List.head?_eq_head hne
  rw [hl] at hc
  have hg := Option.some_injective _ hc
  rw [← hg]
  exact List.head_mem hne

lemma matchPattern_eq_globRegexMatch (rt : List Char → List Char → Option Bool)
    (p v : List Char)
    (hrt : ∀ q w, noRegexMeta q = true → rt q w = some (globRegexMatch q w))
    (hp : noRegexMeta p = true)
    (h1 : (p.getLast? = some '*' ∧ ¬ p.head? = some '*') → '*' ∉ p.dropLast)
    (h2 : (p.head? = some '*' ∧ ¬ p.getLast? = some '*') → '*' ∉ p.drop 1) :
    matchPattern rt p v = some (globRegexMatch p v) := by
  unfold matchPattern
  split_ifs with hpv hstar hend hbeg hmem
  · subst hpv; rw [globRegexMatch_refl p]
  · subst hstar; rw [globRegexMatch_star v]
  · have hne : p ≠ [] := by
      intro hnil; rw [hnil] at hend; simp at hend
    have hlast : p.getLast hne = '*' := by
      have hl := List.getLast?_eq_getLast p hne
      rw [hl] at hend
      exact Option.some_injective _ hend.1
    have hsplit : p.dropLast ++ ['*'] = p := by
      rw [← hlast]; exact List.dropLast_append_getLast hne
    refine congrArg some ?_
    rw [← globRegexMatch_endStar (h1 hend) v, hsplit]
  · have hne : p ≠ [] := by
      intro hnil; rw [hnil] at hbeg; simp at hbeg
    have hhead : p.head hne = '*' := by
      have hl := List.head?_eq_head hne
      rw [hl] at hbeg
      exact Option.some_injective _ hbeg.1
    have hsplit : '*' :: p.tail = p := by
      rw [← hhead]; exact List.head_cons_tail p hne
    refine congrArg some ?_
    rw [← globRegexMatch_suffix (h2 hbeg) v, List.drop_one, hsplit]
  · exact hrt p v hp
  · refine congrArg some ?_
    cases hg : globRegexMatch p v with
    | false => rfl
    | true => exact absurd ((globRegexMatch_nostar hmem v).mp hg) hpv

lemma matchPattern_nostar (rt : List Char → List Char → Option Bool)
    (p v : List Char) (h : '*' ∉ p) :
    matchPattern rt p v = some true ↔ p = v := by
  unfold matchPattern
  split_ifs with hpv hstar hend hbeg
  · simp [hpv]
  · rw [hstar] at h; simp at h
  · exact ((h (getLast?_star_mem hend.1)).elim)
  · exact ((h (head?_star_mem hbeg.1)).elim)
  · simp [hpv]

/-- C6 (counterexample): for the pattern `a*b*` — a `*` both in the middle
and at the end — `matchPattern` takes the prefix-wildcard branch and
compares the literal prefix `a*b`, returning false on `axb`, while the
anchored regex `^a.*b.*$` matches `axb`.  The pattern is free of regex
metacharacters, so `globRegexMatch` is exactly the claim's regex here, and
the regex branch of the code is never reached (the engine parameter is
instantiated with the engine's behaviour on metacharacter-free patterns).
The claimed equivalence is therefore false as stated. -/
theorem claim6_counterexample :
    matchPattern (fun q w => some (globRegexMatch q w)) "a*b*".data "axb".data =
      some false ∧
    globRegexMatch "a*b*".data "axb".data = true := by
  decide

/-- C6 (amended): for patterns made of literal characters and `*` only —
no other JavaScript regex metacharacter, so the regex the code builds
compiles and reads them literally — `matchPattern` agrees with the
anchored regular expression obtained by replacing each `*` with `.*`,
provided additionally that a pattern ending (but not starting) with `*`
contains no further `*`, and symmetrically for a leading `*`; and a
pattern without `*` matches exactly the identical value, irrespective of
the regex engine (that branch is unreachable).  The engine is quantified,
constrained only on metacharacter-free patterns; patterns such as `a*b*`
violate the star proviso (their leading `a*b` is compared as a literal
prefix) and patterns with metacharacters, such as `a.b*`, are outside the
equivalence (the code delegates them to the JavaScript engine, which may
even throw). -/
theorem claim6_matchPattern_regex :
    (∀ (rt : List Char → List Char → Option Bool) (p v : List Char),
        (∀ q w, noRegexMeta q = true → rt q w = some (globRegexMatch q w)) →
        noRegexMeta p = true →
        ((p.getLast? = some '*' ∧ ¬ p.head? = some '*') → '*' ∉ p.dropLast) →
        ((p.head? = some '*' ∧ ¬ p.getLast? = some '*') → '*' ∉ p.drop 1) →
        matchPattern rt p v = some (globRegexMatch p v)) ∧
    (∀ (rt : List Char → List Char → Option Bool) (p v : List Char), '*' ∉ p →
        (matchPattern rt p v = some true ↔ p = v)) :=
  ⟨matchPattern_eq_globRegexMatch, matchPattern_nostar⟩

/-- C6 (witness): the amended equivalence evaluated at the pattern `a*`
and the value `ab`, with the engine instantiated by its behaviour on
metacharacter-free patterns. -/
theorem claim6_witness :
    matchPattern (fun q w => some (globRegexMatch q w)) "a*".data "ab".data =
      some (globRegexMatch "a*".data "ab".data) ∧
    matchPattern (fun q w => some (globRegexMatch q w)) "a*".data "ab".data = some true :=
  ⟨claim6_matchPattern_regex.1 (fun q w => some (globRegexMatch q w)) "a*".data "ab".data
      (fun q w _ => rfl) (by decide) (by decide) (by decide),
   by decide⟩

/-- C1: on the scenario-3 confirmation block the arrow-revision Claude-Code
confirm parser detects an options-style confirmation, and its
`formatResponse` returns `"\r"` for `{action: confirm}`, two down-arrow
escape sequences plus carriage return for `{action: deny}`, and one
down-arrow plus carriage return for `{action: select, option: 2}`. -/
theorem claim1_confirm_format_bytes :
    claudeConfirmDetectArrow scenario3Lines = some ⟨ConfirmType.options⟩ ∧
    formatResponseArrow ⟨ConfirmType.options⟩ ⟨CAction.confirm, none, none⟩ = "\r".data ∧
    formatResponseArrow ⟨ConfirmType.options⟩ ⟨CAction.deny, none, none⟩ = "\x1b[B\x1b[B\r".data ∧
    formatResponseArrow ⟨ConfirmType.options⟩ ⟨CAction.select, some (RespOpt.num 2), none⟩ =
      "\x1b[B\r".data := by
  refine ⟨by decide, by decide, by decide, by decide⟩

lemma ptyWaitGo_spec (t : SessionState) (e : List SessionState) :
    ptyWaitGo t e = match e.find? (fun s =>
        s == t || s == SessionState.error || s == SessionState.exited) with
      | some s => if s = t then WaitOutcome.resolved else WaitOutcome.rejectedEnded
      | none => WaitOutcome.pending := by
  induction e with
  | nil => rfl
  | cons s rest ih =>
    by_cases h1 : s = t
    · simp [ptyWaitGo, h1, List.find?]
    · by_cases h2 : s = SessionState.error ∨ s = SessionState.exited
      · have hp : (s == t || s == SessionState.error || s == SessionState.exited) = true := by
          rcases h2 with h2 | h2 <;> simp [h2]
        simp [ptyWaitGo, h1, h2, List.find?, hp]
      · have hp : (s == t || s == SessionState.error || s == SessionState.exited) = false := by
          push_neg at h2
          simp [h1, h2.1, h2.2]
        simp [ptyWaitGo, h1, h2, List.find?, hp, ih]

lemma termWaitGo_mem (t : SessionState) (e : List SessionState) :
    termWaitGo t e = if t ∈ e then WaitOutcome.resolved else WaitOutcome.pending := by
  induction e with
  | nil => simp [termWaitGo]
  | cons s rest ih =>
    by_cases h : s = t
    · simp [termWaitGo, h]
    · have hts : ¬ t = s := fun ht => h ht.symm
      simp [termWaitGo, h, ih, hts]

/-- C2 (counterexample): with the `SemanticTerminal` driver waiting for
`thinking` from `idle`, a `state_change` to `error` leaves the waiter
pending (it rejects only when the timeout later fires, and would even
resolve on a still-later `thinking`), whereas the `PTYSession` driver
rejects immediately — so the claim is false for one of the two drivers. -/
theorem claim2_counterexample :
    termWaitForState SessionState.idle SessionState.thinking [SessionState.error] =
      WaitOutcome.pending ∧
    termWaitForState SessionState.idle SessionState.thinking
      [SessionState.error, SessionState.thinking] = WaitOutcome.resolved ∧
    ptyWaitForState SessionState.idle SessionState.thinking [SessionState.error] =
      WaitOutcome.rejectedEnded := by
  decide

/-- C2 (amended): `PTYSession.waitForState` satisfies the claimed contract
(resolve on entering the target state, immediate rejection on entering
`error`/`exited` while waiting for a different state, otherwise reject at
the timeout); `SemanticTerminal.waitForState`, however, resolves on the
target state and otherwise stays pending until its timeout — entering
`error` or `exited` does not settle it. -/
theorem claim2_wait_for_state :
    (∀ c t e, ptyWaitForState c t e = waitSpec c t e) ∧
    (∀ c t e, termWaitForState c t e =
        if c = t ∨ t ∈ e then WaitOutcome.resolved else WaitOutcome.pending) := by
  constructor
  · intro c t e
    unfold ptyWaitForState waitSpec
    by_cases hct : c = t
    · simp [hct]
    · simp only [if_neg hct]
      exact ptyWaitGo_spec t e
  · intro c t e
    unfold termWaitForState
    by_cases hct : c = t
    · simp [hct]
    · rw [if_neg hct, termWaitGo_mem]
      by_cases hm : t ∈ e <;> simp [hm, hct]

/-- C3 (counterexample): a trace of the driver with the Claude-Code
parsers.  Tick 1 (screen = the scenario-3 dialog) detects the
confirmation: state becomes `confirming`, pending is set.  Tick 2 (the
dialog has been replaced by an idle prompt) detects no confirmation and
transitions to `idle`, but `checkState` never clears `pendingConfirm` —
so after that tick `pending ≠ none` while `state ≠ confirming`, and a
further tick on the unchanged screen (tick 3) changes nothing.  The
claimed equivalence is not re-established within one tick. -/
theorem claim3_counterexample :
    let d1 := (claudeTick ⟨SessionState.idle, none, []⟩ scenario3Lines).1
    let d2 := (claudeTick d1 idlePromptLines).1
    d1.state = SessionState.confirming ∧ d1.pending = some ⟨ConfirmType.options⟩ ∧
    d2.state = SessionState.idle ∧ d2.pending = some ⟨ConfirmType.options⟩ ∧
    claudeTick d2 idlePromptLines = (d2, []) := by
  decide

/-- C3 (amended): the forward direction is established at detection time:
a tick that sees a screen change and whose confirm dispatch hits leaves
`pending` set and the state `confirming`; and `confirm()` clears
`pending` (leaving the state untouched).  The biconditional of the
original claim does not hold at every observation point: `pending` is
cleared only by `confirm`, never by a state transition (see the
counterexample). -/
theorem claim3_pending_confirm :
    (∀ (d : DriverSt) (screen : List (List Char)) (info : ConfirmInfo')
        (sRes : Option SessionState),
        (hasScreenChangedS screen d.lastScreenContent).1 = true →
        (checkStateTick d screen (some info) sRes).1.pending = some info ∧
        (checkStateTick d screen (some info) sRes).1.state = SessionState.confirming) ∧
    (∀ (d : DriverSt) (fmt : ConfirmInfo' → List Char) (info : ConfirmInfo'),
        d.pending = some info →
        confirmOp d fmt = .ok (⟨d.state, none, d.lastScreenContent⟩, fmt info)) := by
  constructor
  · intro d screen info sRes h
    unfold checkStateTick
    rcases hsc : hasScreenChangedS screen d.lastScreenContent with ⟨b, stored⟩
    rw [hsc] at h
    simp only at h
    subst h
    by_cases hconf : d.state = SessionState.confirming
    · simp [hconf]
    · simp [hconf]
  · intro d fmt info h
    unfold confirmOp
    rw [h]

/-- C3 (witness): the amended statement applied to a concrete
confirmation-detecting tick and a concrete `confirm()` call. -/
theorem claim3_witness :
    ((checkStateTick ⟨SessionState.idle, none, []⟩ idlePromptLines
        (some ⟨ConfirmType.options⟩) none).1.pending = some ⟨ConfirmType.options⟩ ∧
     (checkStateTick ⟨SessionState.idle, none, []⟩ idlePromptLines
        (some ⟨ConfirmType.options⟩) none).1.state = SessionState.confirming) ∧
    confirmOp ⟨SessionState.confirming, some ⟨ConfirmType.options⟩, []⟩
        (fun info => formatResponseArrow info ⟨CAction.confirm, none, none⟩) =
      .ok (⟨SessionState.confirming, none, []⟩, ['\r']) :=
  ⟨claim3_pending_confirm.1 ⟨SessionState.idle, none, []⟩ idlePromptLines
      ⟨ConfirmType.options⟩ none (by decide),
   claim3_pending_confirm.2 ⟨SessionState.confirming, some ⟨ConfirmType.options⟩, []⟩
      (fun info => formatResponseArrow info ⟨CAction.confirm, none, none⟩)
      ⟨ConfirmType.options⟩ rfl⟩

lemma trimLeft_suffix (l : List Char) : trimLeft l <:+ l :=
  List.dropWhile_suffix _

lemma trimRight_isPre (l : List Char) : trimRight l <+: l := by
  unfold trimRight
  have h : List.dropWhile jsWs l.reverse <:+ l.reverse := List.dropWhile_suffix _
  have h2 := List.reverse_prefix.mpr h
  rwa [List.reverse_reverse] at h2

/-- C4 (counterexample): with pre-command screen `"a"` and post-command
screen `"a x "`, `exec` returns `"x"` — the suffix past the offset with
whitespace removed at BOTH ends — not the right-trimmed `" x"` the claim
states, and the returned string is not a suffix of the post-command
screen text. -/
theorem claim4_counterexample :
    execNewContent "a".data "a x ".data = "x".data ∧
    trimRight (("a x ".data).drop ("a".data).length) = " x".data ∧
    ¬ "x".data <:+ "a x ".data := by
  decide

/-- C4 (amended): the string returned by `exec` for unparsed output is the
suffix of the post-command screen text past the captured pre-command
length, trimmed of whitespace at BOTH ends (JavaScript `trim`); it is
therefore an infix (substring) of the post-command screen text, though
not in general a suffix. -/
theorem claim4_exec_new_content :
    ∀ before after : List Char,
      execNewContent before after = jsTrim (after.drop before.length) ∧
      execNewContent before after <:+: after := by
  intro before after
  refine ⟨rfl, ?_⟩
  unfold execNewContent jsTrim
  exact (trimLeft_suffix _).isInfix.trans
    ((trimRight_isPre _).isInfix.trans (List.drop_suffix _ _).isInfix)

/-- C9: a tick whose screen agrees with the previous one on the LAST 10
LINES (the only thing `hasScreenChanged` compares) is a complete no-op:
whatever the registry would answer, the driver state is unchanged and no
event is emitted — even if the screen text as a whole changed. -/
theorem claim9_scrollback_gate :
    ∀ (d : DriverSt) (s1 s2 : List (List Char)),
      d.lastScreenContent = joinLines (getLastLinesL 10 s1) →
      getLastLinesL 10 s2 = getLastLinesL 10 s1 →
      ∀ cRes sRes, checkStateTick d s2 cRes sRes = (d, []) := by
  intro d s1 s2 h1 h2 cRes sRes
  unfold checkStateTick hasScreenChangedS
  rw [h2, ← h1]
  simp

/-- C9 (witness): an 11-line screen whose first (scrollback) line mutates:
the full screen text differs but the tick — given even non-null dispatch
results — changes nothing and emits nothing. -/
theorem claim9_witness :
    checkStateTick
        ⟨SessionState.idle, none, joinLines (getLastLinesL 10 ("a".data :: List.replicate 10 "x".data))⟩
        ("b".data :: List.replicate 10 "x".data)
        (some ⟨ConfirmType.options⟩) (some SessionState.thinking) =
      (⟨SessionState.idle, none, joinLines (getLastLinesL 10 ("a".data :: List.replicate 10 "x".data))⟩, []) ∧
    ¬ getScreenTextL ("b".data :: List.replicate 10 "x".data) =
        getScreenTextL ("a".data :: List.replicate 10 "x".data) :=
  ⟨claim9_scrollback_gate _ ("a".data :: List.replicate 10 "x".data) _ rfl (by decide) _ _,
   by decide⟩

/-- C10: `sendMessage` appends the trimmed user message to the history
BEFORE writing to the PTY; when the write throws (session not started, or
session exited) the call fails but the history mutation is not rolled
back — and nothing reached the PTY. -/
theorem claim10_history_not_rolled_back :
    ∀ (s : SessM) (msg : List Char) (now : Nat),
      s.started = false ∨ s.state = SessionState.exited →
      (sendMessage s msg now).2.isSome = true ∧
      (sendMessage s msg now).1.history = s.history ++ [⟨Role.user, jsTrim msg, now⟩] ∧
      (sendMessage s msg now).1.written = s.written := by
  intro s msg now h
  rcases h with h | h
  · simp [sendMessage, writeS, h]
  · by_cases hs : s.started = true
    · simp [sendMessage, writeS, h, hs]
    · simp [sendMessage, writeS, hs]

/-- C10 (witness): a never-started session; sending `" hi "` throws but
the trimmed message is in the history. -/
theorem claim10_witness :
    (sendMessage ⟨false, SessionState.idle, [], []⟩ " hi ".data 5).2.isSome = true ∧
    (sendMessage ⟨false, SessionState.idle, [], []⟩ " hi ".data 5).1.history =
      [] ++ [⟨Role.user, jsTrim " hi ".data, 5⟩] ∧
    (sendMessage ⟨false, SessionState.idle, [], []⟩ " hi ".data 5).1.written = [] :=
  claim10_history_not_rolled_back ⟨false, SessionState.idle, [], []⟩ " hi ".data 5 (Or.inl rfl)

lemma firstMaxT_none {α : Type} (conf : α → ℚ) (bc : ℚ) :
    ∀ {l : List α}, firstMaxT conf bc l = none → ∀ r ∈ l, conf r ≤ bc := by
  intro l
  induction l with
  | nil => intro _ r hr; simp at hr
  | cons r rest ih =>
    intro h x hx
    rw [firstMaxT] at h
    rcases hr : firstMaxT conf bc rest with _ | b
    · rw [hr] at h
      simp only at h
      by_cases hbc : bc < conf r
      · rw [if_pos hbc] at h
        exact absurd h (by simp)
      · rcases List.mem_cons.mp hx with hx | hx
        · subst hx; exact not_lt.mp hbc
        · exact ih hr x hx
    · rw [hr] at h
      simp only at h
      by_cases hle : conf b ≤ conf r
      · rw [if_pos hle] at h; exact absurd h (by simp)
      · rw [if_neg hle] at h; exact absurd h (by simp)

lemma firstMaxT_of_all_le {α : Type} (conf : α → ℚ) (bc : ℚ) :
    ∀ {l : List α}, (∀ r ∈ l, conf r ≤ bc) → firstMaxT conf bc l = none := by
  intro l
  induction l with
  | nil => intro _; rfl
  | cons r rest ih =>
    intro h
    have hrest := ih (fun x hx => h x (List.mem_cons_of_mem r hx))
    rw [firstMaxT, hrest]
    simp only
    rw [if_neg (not_lt.mpr (h r (List.mem_cons_self r rest)))]

lemma firstMaxT_some {α : Type} (conf : α → ℚ) (bc : ℚ) :
    ∀ {l : List α} {w : α}, firstMaxT conf bc l = some w →
      ∃ pre post, l = pre ++ w :: post ∧ (∀ r ∈ pre, conf r < conf w) ∧
        (∀ r ∈ l, conf r ≤ conf w) ∧ bc < conf w := by
  intro l
  induction l with
  | nil => intro w h; simp [firstMaxT] at h
  | cons r rest ih =>
    intro w h
    rw [firstMaxT] at h
    rcases hr : firstMaxT conf bc rest with _ | b
    · rw [hr] at h
      simp only at h
      by_cases hbc : bc < conf r
      · rw [if_pos hbc] at h
        have hw : r = w := Option.some_injective _ h
        subst hw
        refine ⟨[], rest, rfl, by simp, ?_, hbc⟩
        intro x hx
        rcases List.mem_cons.mp hx with hx | hx
        · subst hx; exact le_refl _
        · exact le_trans (firstMaxT_none conf bc hr x hx) (le_of_lt hbc)
      · rw [if_neg hbc] at h
        exact absurd h (by simp)
    · rw [hr] at h
      simp only at h
      obtain ⟨pre, post, hl, hpre, hall, hbcb⟩ := ih hr
      by_cases hle : conf b ≤ conf r
      · rw [if_pos hle] at h
        have hw : r = w := Option.some_injective _ h
        subst hw
        refine ⟨[], rest, rfl, by simp, ?_, lt_of_lt_of_le hbcb hle⟩
        intro x hx
        rcases List.mem_cons.mp hx with hx | hx
        · subst hx; exact le_refl _
        · exact le_trans (hall x hx) hle
      · rw [if_neg hle] at h
        have hw : b = w := Option.some_injective _ h
        subst hw
        refine ⟨r :: pre, post, ?_, ?_, ?_, hbcb⟩
        · rw [hl, List.cons_append]
        · intro x hx
          rcases List.mem_cons.mp hx with hx | hx
          · subst hx; exact lt_of_not_le hle
          · exact hpre x hx
        · intro x hx
          rcases List.mem_cons.mp hx with hx | hx
          · subst hx; exact le_of_lt (lt_of_not_le hle)
          · exact hall x hx

lemma firstMaxT_pos {α : Type} (conf : α → ℚ) (bc : ℚ) {l : List α} {w : α}
    (h : firstMaxT conf bc l = some w) : bc < conf w := by
  obtain ⟨-, -, -, -, -, hp⟩ := firstMaxT_some conf bc h
  exact hp

lemma firstMaxT_mono_none {α : Type} (conf : α → ℚ) {bc bc' : ℚ} (h : bc ≤ bc')
    {l : List α} (hn : firstMaxT conf bc l = none) : firstMaxT conf bc' l = none :=
  firstMaxT_of_all_le conf bc'
    (fun r hr => le_trans (firstMaxT_none conf bc hn r hr) h)

lemma firstMaxT_mono_some {α : Type} (conf : α → ℚ) {bc bc' : ℚ} (h : bc ≤ bc') :
    ∀ {l : List α} {w : α}, firstMaxT conf bc l = some w →
      firstMaxT conf bc' l = if bc' < conf w then some w else none := by
  intro l
  induction l with
  | nil => intro w hs; simp [firstMaxT] at hs
  | cons r rest ih =>
    intro w hs
    rw [firstMaxT] at hs
    rw [firstMaxT]
    rcases hr : firstMaxT conf bc rest with _ | b
    · rw [hr] at hs
      simp only at hs
      by_cases hbc : bc < conf r
      · rw [if_pos hbc] at hs
        have hw : r = w := Option.some_injective _ hs
        subst hw
        rw [firstMaxT_mono_none conf h hr]
      · rw [if_neg hbc] at hs
        exact absurd hs (by simp)
    · rw [hr] at hs
      simp only at hs
      rw [ih hr]
      by_cases hle : conf b ≤ conf r
      · rw [if_pos hle] at hs
        have hw : r = w := Option.some_injective _ hs
        subst hw
        by_cases hbb : bc' < conf b
        · have hbr : bc' < conf r := lt_of_lt_of_le hbb hle
          simp [hbb, hle, hbr]
        · simp [hbb]
      · rw [if_neg hle] at hs
        have hw : b = w := Option.some_injective _ hs
        subst hw
        have hrb : conf r < conf b := lt_of_not_le hle
        by_cases hbb : bc' < conf b
        · simp [hbb, hle]
        · have hble : conf b ≤ bc' := not_lt.mp hbb
          have hnr : ¬ bc' < conf r := not_lt.mpr (le_trans (le_of_lt hrb) hble)
          simp [hbb, hnr]

lemma bestLoop_of_none {α : Type} (conf : α → ℚ) :
    ∀ {l : List α} {bc : ℚ} (best : Option α), firstMaxT conf bc l = none →
      bestLoop conf l best bc = best := by
  intro l
  induction l with
  | nil => intro _ _ _; rfl
  | cons r rest ih =>
    intro bc best hn
    have hall := firstMaxT_none conf bc hn
    have hr : ¬ bc < conf r := not_lt.mpr (hall r (List.mem_cons_self r rest))
    rw [bestLoop, if_neg hr]
    exact ih best (firstMaxT_of_all_le conf bc
      (fun x hx => hall x (List.mem_cons_of_mem r hx)))

lemma bestLoop_of_some {α : Type} (conf : α → ℚ) :
    ∀ {l : List α} {bc : ℚ} {w : α} (best : Option α), firstMaxT conf bc l = some w →
      bestLoop conf l best bc = some w := by
  intro l
  induction l with
  | nil => intro _ w _ hs; simp [firstMaxT] at hs
  | cons r rest ih =>
    intro bc w best hs
    rw [firstMaxT] at hs
    rw [bestLoop]
    rcases hr : firstMaxT conf bc rest with _ | b
    · rw [hr] at hs
      simp only at hs
      by_cases hbc : bc < conf r
      · rw [if_pos hbc] at hs
        have hw : r = w := Option.some_injective _ hs
        subst hw
        rw [if_pos hbc]
        exact bestLoop_of_none conf _ (firstMaxT_mono_none conf (le_of_lt hbc) hr)
      · rw [if_neg hbc] at hs
        exact absurd hs (by simp)
    · rw [hr] at hs
      simp only at hs
      have hbcb : bc < conf b := firstMaxT_pos conf bc hr
      by_cases hle : conf b ≤ conf r
      · rw [if_pos hle] at hs
        have hw : r = w := Option.some_injective _ hs
        subst hw
        have hbc : bc < conf r := lt_of_lt_of_le hbcb hle
        rw [if_pos hbc]
        have hmono := firstMaxT_mono_some conf (le_of_lt hbc) hr
        rw [if_neg (not_lt.mpr hle)] at hmono
        exact bestLoop_of_none conf _ hmono
      · rw [if_neg hle] at hs
        have hw : b = w := Option.some_injective _ hs
        subst hw
        have hrb : conf r < conf b := lt_of_not_le hle
        by_cases hbc : bc < conf r
        · rw [if_pos hbc]
          have hmono := firstMaxT_mono_some conf (le_of_lt hbc) hr
          rw [if_pos hrb] at hmono
          exact ih _ hmono
        · rw [if_neg hbc]
          exact ih best hr

lemma detectStateLoop_eq_bestLoop :
    ∀ (l : List StPRes) (best : Option StResult) (bc : ℚ),
      detectStateLoop l best bc = bestLoop StResult.confidence (stMatches l) best bc := by
  intro l
  induction l with
  | nil => intro _ _; rfl
  | cons p rest ih =>
    intro best bc
    cases p with
    | threw => simp only [detectStateLoop, stMatches]; exact ih best bc
    | ok r =>
      cases r with
      | none => simp only [detectStateLoop, stMatches]; exact ih best bc
      | some res =>
        simp only [detectStateLoop, stMatches, bestLoop]
        by_cases h : bc < res.confidence
        · rw [if_pos h, if_pos h]; exact ih _ _
        · rw [if_neg h, if_neg h]; exact ih best bc

lemma parseOutputLoop_eq_bestLoop :
    ∀ (l : List OutPRes) (best : Option OutResult) (bc : ℚ),
      parseOutputLoop l best bc = bestLoop OutResult.confidence (outMatches l) best bc := by
  intro l
  induction l with
  | nil => intro _ _; rfl
  | cons p rest ih =>
    intro best bc
    cases p with
    | canThrew => simp only [parseOutputLoop, outMatches]; exact ih best bc
    | noCan => simp only [parseOutputLoop, outMatches]; exact ih best bc
    | parseThrew => simp only [parseOutputLoop, outMatches]; exact ih best bc
    | parsed r =>
      cases r with
      | none => simp only [parseOutputLoop, outMatches]; exact ih best bc
      | some res =>
        simp only [parseOutputLoop, outMatches, bestLoop]
        by_cases h : bc < res.confidence
        · rw [if_pos h, if_pos h]; exact ih _ _
        · rw [if_neg h, if_neg h]; exact ih best bc

lemma detectStateD_eq (l : List StPRes) :
    detectStateD l = firstMaxT StResult.confidence 0 (stMatches l) := by
  unfold detectStateD
  rw [detectStateLoop_eq_bestLoop]
  rcases h : firstMaxT StResult.confidence 0 (stMatches l) with _ | w
  · exact bestLoop_of_none _ _ h
  · exact bestLoop_of_some _ _ h

lemma parseOutputD_eq (l : List OutPRes) :
    parseOutputD l = firstMaxT OutResult.confidence 0 (outMatches l) := by
  unfold parseOutputD
  rw [parseOutputLoop_eq_bestLoop]
  rcases h : firstMaxT OutResult.confidence 0 (outMatches l) with _ | w
  · exact bestLoop_of_none _ _ h
  · exact bestLoop_of_some _ _ h

/-- C5 (counterexample): a single registered parser that matches with
confidence 0 — legal, since the contract only requires confidence in
[0,1] — makes `detectState` return null even though a parser matched,
contradicting "return null when no parser matches, and otherwise return
the result of one of the matching parsers". -/
theorem claim5_counterexample :
    detectStateD [StPRes.ok (some ⟨SessionState.idle, 0⟩)] = none ∧
    stMatches [StPRes.ok (some ⟨SessionState.idle, 0⟩)] = [⟨SessionState.idle, 0⟩] := by
  decide

/-- C5 (amended): both dispatchers equal the first-maximum selection with
threshold 0 over the matching results: they return null exactly when every
matching parser has confidence ≤ 0; otherwise the winner is a matching
result with positive confidence, maximal among all matches, and every
match strictly before it has strictly smaller confidence (so ties at the
maximum go to the earliest, i.e. highest-priority, parser). -/
theorem claim5_registry_dispatch :
    (∀ l : List StPRes, detectStateD l = firstMaxT StResult.confidence 0 (stMatches l)) ∧
    (∀ l : List OutPRes, parseOutputD l = firstMaxT OutResult.confidence 0 (outMatches l)) ∧
    (∀ (l : List StPRes) (w : StResult), detectStateD l = some w →
      ∃ pre post, stMatches l = pre ++ w :: post ∧
        (∀ r ∈ pre, r.confidence < w.confidence) ∧
        (∀ r ∈ stMatches l, r.confidence ≤ w.confidence) ∧ 0 < w.confidence) ∧
    (∀ l : List StPRes, detectStateD l = none ↔ ∀ r ∈ stMatches l, r.confidence ≤ 0) ∧
    (∀ (l : List OutPRes) (w : OutResult), parseOutputD l = some w →
      ∃ pre post, outMatches l = pre ++ w :: post ∧
        (∀ r ∈ pre, r.confidence < w.confidence) ∧
        (∀ r ∈ outMatches l, r.confidence ≤ w.confidence) ∧ 0 < w.confidence) ∧
    (∀ l : List OutPRes, parseOutputD l = none ↔ ∀ r ∈ outMatches l, r.confidence ≤ 0) := by
  refine ⟨detectStateD_eq, parseOutputD_eq, ?_, ?_, ?_, ?_⟩
  · intro l w h
    rw [detectStateD_eq] at h
    exact firstMaxT_some _ 0 h
  · intro l
    rw [detectStateD_eq]
    exact ⟨fun h => firstMaxT_none _ 0 h, fun h => firstMaxT_of_all_le _ 0 h⟩
  · intro l w h
    rw [parseOutputD_eq] at h
    exact firstMaxT_some _ 0 h
  · intro l
    rw [parseOutputD_eq]
    exact ⟨fun h => firstMaxT_none _ 0 h, fun h => firstMaxT_of_all_le _ 0 h⟩

/-- C5 (witness): the winner decomposition applied to a one-parser
registry returning confidence 1. -/
theorem claim5_witness :
    ∃ pre post,
      stMatches [StPRes.ok (some ⟨SessionState.idle, 1⟩)] =
        pre ++ (⟨SessionState.idle, 1⟩ : StResult) :: post ∧
      (∀ r ∈ pre, r.confidence < (⟨SessionState.idle, 1⟩ : StResult).confidence) ∧
      (∀ r ∈ stMatches [StPRes.ok (some ⟨SessionState.idle, 1⟩)],
        r.confidence ≤ (⟨SessionState.idle, 1⟩ : StResult).confidence) ∧
      0 < (⟨SessionState.idle, 1⟩ : StResult).confidence :=
  claim5_registry_dispatch.2.2.1 [StPRes.ok (some ⟨SessionState.idle, 1⟩)]
    ⟨SessionState.idle, 1⟩ (by decide)

lemma stMatches_dropThrows (l : List StPRes) :
    stMatches (stDropThrows l) = stMatches l := by
  induction l with
  | nil => rfl
  | cons p rest ih =>
    cases p with
    | threw => simp only [stDropThrows, stMatches]; exact ih
    | ok r =>
      cases r with
      | none => simp only [stDropThrows, stMatches]; exact ih
      | some res => simp only [stDropThrows, stMatches]; rw [ih]

lemma outMatches_dropThrows (l : List OutPRes) :
    outMatches (outDropThrows l) = outMatches l := by
  induction l with
  | nil => rfl
  | cons p rest ih =>
    cases p with
    | canThrew => simp only [outDropThrows, outMatches]; exact ih
    | noCan => simp only [outDropThrows, outMatches]; exact ih
    | parseThrew => simp only [outDropThrows, outMatches]; exact ih
    | parsed r =>
      cases r with
      | none => simp only [outDropThrows, outMatches]; exact ih
      | some res => simp only [outDropThrows, outMatches]; rw [ih]

/-- C7: parsers that throw during dispatch are skipped and never change
the outcome: each dispatcher computes the same result as it would with
the throwing parsers removed from the registry (and, being total
functions here, the dispatchers surface no exception to the caller). -/
theorem claim7_parser_throw_isolation :
    (∀ l : List StPRes, detectStateD (stDropThrows l) = detectStateD l) ∧
    (∀ l : List OutPRes, parseOutputD (outDropThrows l) = parseOutputD l) ∧
    (∀ l : List CPRes, detectConfirmD (cDropThrows l) = detectConfirmD l) := by
  refine ⟨?_, ?_, ?_⟩
  · intro l
    rw [detectStateD_eq, detectStateD_eq, stMatches_dropThrows]
  · intro l
    rw [parseOutputD_eq, parseOutputD_eq, outMatches_dropThrows]
  · intro l
    induction l with
    | nil => rfl
    | cons p rest ih =>
      cases p with
      | threw => simp only [cDropThrows, detectConfirmD]; exact ih
      | ok i =>
        cases i with
        | none => simp only [cDropThrows, detectConfirmD]; exact ih
        | some info => simp only [cDropThrows, detectConfirmD]

lemma classify_of_hunkHeader {l : List Char} (h : isHunkHeader l = true) :
    classifyDiffLine l = none := by
  unfold isHunkHeader at h
  obtain ⟨t, ht⟩ := List.isPrefixOf_iff_prefix.mp h
  rw [← ht]
  simp [classifyDiffLine, List.isPrefixOf]

lemma classify_eq_add (l : List Char) :
    (classifyDiffLine l == some ChangeKind.add) = isAddLine l := by
  unfold classifyDiffLine isAddLine
  by_cases h1 : "+".data.isPrefixOf l ∧ ¬ "+++".data.isPrefixOf l
  · rw [if_pos h1]
    simp [h1.1, h1.2]
  · rw [if_neg h1]
    have hrhs : ("+".data.isPrefixOf l && !("+++".data.isPrefixOf l)) = false := by
      by_cases hA : "+".data.isPrefixOf l = true
      · have hB : "+++".data.isPrefixOf l = true := by
          by_contra hB
          exact h1 ⟨hA, hB⟩
        simp [hA, hB]
      · have hA' : "+".data.isPrefixOf l = false := eq_false_of_ne_true hA
        simp [hA']
    rw [hrhs]
    split_ifs <;> simp

lemma classify_eq_rem (l : List Char) :
    (classifyDiffLine l == some ChangeKind.remove) = isRemLine l := by
  unfold classifyDiffLine isRemLine
  by_cases h1 : "+".data.isPrefixOf l ∧ ¬ "+++".data.isPrefixOf l
  · rw [if_pos h1]
    have hrhs : ("-".data.isPrefixOf l && !("---".data.isPrefixOf l)) = false := by
      have : "-".data.isPrefixOf l = false := by
        obtain ⟨t, ht⟩ := List.isPrefixOf_iff_prefix.mp h1.1
        rw [← ht]
        simp [List.isPrefixOf]
      simp [this]
    rw [hrhs]
    simp
  · rw [if_neg h1]
    by_cases h2 : "-".data.isPrefixOf l ∧ ¬ "---".data.isPrefixOf l
    · rw [if_pos h2]
      simp [h2.1, h2.2]
    · rw [if_neg h2]
      have hrhs : ("-".data.isPrefixOf l && !("---".data.isPrefixOf l)) = false := by
        by_cases hA : "-".data.isPrefixOf l = true
        · have hB : "---".data.isPrefixOf l = true := by
            by_contra hB
            exact h2 ⟨hA, hB⟩
          simp [hA, hB]
        · have hA' : "-".data.isPrefixOf l = false := eq_false_of_ne_true hA
          simp [hA']
      rw [hrhs]
      split_ifs <;> simp

lemma diffParseLoop_some (k : ChangeKind) :
    ∀ (ls : List (List Char)) (hunks : List DiffHunk') (h : DiffHunk'),
      countChangesK k (diffParseLoop ls hunks (some h)) =
        countChangesK k hunks + h.changes.countP (fun c => c.kind == k) +
          ls.countP (fun l => classifyDiffLine l == some k) := by
  intro ls
  induction ls with
  | nil =>
    intro hunks h
    simp [diffParseLoop, countChangesK, List.countP_nil]
  | cons l rest ih =>
    intro hunks h
    rw [diffParseLoop]
    by_cases hh : isHunkHeader l = true
    · rw [if_pos hh, ih]
      have hcl : (classifyDiffLine l == some k) = false := by
        rw [classify_of_hunkHeader hh]
        rfl
      rw [List.countP_cons, hcl]
      simp [countChangesK]
    · rw [if_neg hh]
      rcases hc : classifyDiffLine l with _ | k'
      · simp only
        rw [ih]
        rw [List.countP_cons, hc]
        simp
      · simp only
        rw [ih]
        rw [List.countP_cons, hc]
        simp only [List.countP_append, List.countP_cons, List.countP_nil]
        by_cases hk : k' = k
        · subst hk
          simp
          omega
        · have : (some k' == some k) = false := by simp [hk]
          rw [this]
          have hkk : ((⟨k', l.drop 1⟩ : DiffChange).kind == k) = false := by simp [hk]
          simp [hkk]

lemma diffParseLoop_none (k : ChangeKind) :
    ∀ (ls : List (List Char)) (hunks : List DiffHunk'),
      countChangesK k (diffParseLoop ls hunks none) =
        countChangesK k hunks +
          (afterFirstHunkHeader ls).countP (fun l => classifyDiffLine l == some k) := by
  intro ls
  induction ls with
  | nil => intro hunks; simp [diffParseLoop, afterFirstHunkHeader, countChangesK]
  | cons l rest ih =>
    intro hunks
    rw [diffParseLoop]
    by_cases hh : isHunkHeader l = true
    · rw [if_pos hh]
      rw [diffParseLoop_some k]
      have hafter : afterFirstHunkHeader (l :: rest) = rest := by
        unfold afterFirstHunkHeader
        rw [List.dropWhile_cons]
        simp [hh]
      rw [hafter]
      simp [countChangesK]
    · rw [if_neg hh]
      rw [ih]
      have hafter : afterFirstHunkHeader (l :: rest) = afterFirstHunkHeader rest := by
        unfold afterFirstHunkHeader
        rw [List.dropWhile_cons]
        simp [hh]
      rw [hafter]

/-- C8 (amended): for every diff text accepted by the parser, the `add`
(resp. `remove`) changes summed over all hunks equal the number of lines
beginning with `+` but not `+++` (resp. `-` but not `---`) among the lines
strictly AFTER the first hunk-header (`@@`) line; such lines occurring
before the first hunk header are dropped by the parser and not counted. -/
theorem claim8_diff_roundtrip :
    ∀ (lines : List (List Char)) (hunks : List DiffHunk'),
      diffParse lines = some hunks →
      countChangesK ChangeKind.add hunks = (afterFirstHunkHeader lines).countP isAddLine ∧
      countChangesK ChangeKind.remove hunks = (afterFirstHunkHeader lines).countP isRemLine := by
  intro lines hunks h
  simp only [diffParse] at h
  by_cases he : diffParseLoop lines [] none = []
  · rw [if_pos he] at h
    exact absurd h (by simp)
  · rw [if_neg he] at h
    have hh : diffParseLoop lines [] none = hunks := Option.some_injective _ h
    rw [← hh]
    constructor
    · rw [diffParseLoop_none ChangeKind.add]
      have hc : (afterFirstHunkHeader lines).countP
            (fun l => classifyDiffLine l == some ChangeKind.add) =
          (afterFirstHunkHeader lines).countP isAddLine :=
        List.countP_congr (fun l _ => by rw [classify_eq_add l])
      rw [hc]
      simp [countChangesK]
    · rw [diffParseLoop_none ChangeKind.remove]
      have hc : (afterFirstHunkHeader lines).countP
            (fun l => classifyDiffLine l == some ChangeKind.remove) =
          (afterFirstHunkHeader lines).countP isRemLine :=
        List.countP_congr (fun l _ => by rw [classify_eq_rem l])
      rw [hc]
      simp [countChangesK]

/-- C8 (counterexample): a text accepted by the diff parser (it contains a
hunk) with a `+` line BEFORE the first `@@` header: the parser records one
addition, but the input has two lines beginning with `+` (neither starting
with `+++`), so the claimed count equality fails. -/
theorem claim8_counterexample :
    diffParse ["+early".data, "@@ -1 +1 @@".data, "+foo".data] =
      some [⟨"@@ -1 +1 @@".data, [⟨ChangeKind.add, "foo".data⟩]⟩] ∧
    countChangesK ChangeKind.add [⟨"@@ -1 +1 @@".data, [⟨ChangeKind.add, "foo".data⟩]⟩] = 1 ∧
    (["+early".data, "@@ -1 +1 @@".data, "+foo".data].countP isAddLine) = 2 := by
  decide

/-- C8 (witness): the amended count equality evaluated on a one-hunk diff. -/
theorem claim8_witness :
    countChangesK ChangeKind.add [⟨"@@ -1 +1 @@".data, [⟨ChangeKind.add, "foo".data⟩]⟩] =
      (afterFirstHunkHeader ["@@ -1 +1 @@".data, "+foo".data]).countP isAddLine ∧
    countChangesK ChangeKind.remove [⟨"@@ -1 +1 @@".data, [⟨ChangeKind.add, "foo".data⟩]⟩] =
      (afterFirstHunkHeader ["@@ -1 +1 @@".data, "+foo".data]).countP isRemLine :=
  claim8_diff_roundtrip ["@@ -1 +1 @@".data, "+foo".data]
    [⟨"@@ -1 +1 @@".data, [⟨ChangeKind.add, "foo".data⟩]⟩] (by decide)

end SemanticTerminal
